import Mathlib

/-!
Verification of the `shenfun.forms.arguments` term-algebra core against its
specification.  The Python module is shallowly embedded: numpy tensors become
nested `List`s (axis 0 = vector component, axis 1 = term, axis 2 = spatial
direction), float scales become `ℚ`, python exceptions become an explicit
error type, and in-place methods are modelled as functions that return the
final state of the mutated object together with the outcome, following the
statement order of the source so that partially executed mutations are
visible.
-/

namespace Shenfun

/-- Exceptions that the embedded code can raise. -/
inductive PyErr where
  | assertionError
  | notImplementedError
  | unboundLocalError
deriving DecidableEq, Repr

/-- A Python value that may or may not be a `numbers.Number`; used for the
entries of a tuple operand of `__mul__`/`__imul__`. -/
inductive PyVal where
  | num (c : ℚ)
  | nonNum
deriving DecidableEq, Repr

/-- Operand of `Expr.__mul__` / `Expr.__imul__`: a plain number, a tuple, or
any other Python object. -/
inductive MulArg where
  | num (c : ℚ)
  | tup (cs : List PyVal)
  | other
deriving DecidableEq, Repr

/-- Shape (C, T): one row per vector component, one entry per term. -/
abbrev Mat (α : Type) := List (List α)

/-- Shape (C, T, D): derivative orders per component, term and axis. -/
abbrev Ten3 (α : Type) := List (List (List α))

/-- Opaque handle to a (possibly vector-valued) tensor-product spectral
space.  Modelled from the spec: the concrete `TensorProductSpace` is external
to the core; it exposes `ndim()`, `num_components()`, `rank()` and component
indexing.  `sid` models Python object identity, which is what `==` compares
for spaces. -/
structure TensorSpace where
  sid : Nat
  sndim : Nat
  sncomp : Nat
  srank : Nat
deriving DecidableEq, Repr

/-- Modelled from the spec: `space[i]`, the scalar i-th component sub-space
of a vector space (external `TensorProductSpace.__getitem__`). -/
def TensorSpace.getitem (s : TensorSpace) (i : Nat) : TensorSpace :=
  ⟨s.sid * 64 + i + 1, s.sndim, 1, 1⟩

/-- Embedding of `BasisFunction.__init__`: a space, a role
(0 = TestFunction, 1 = TrialFunction, 2 = Function) and a component index. -/
structure BasisFunction where
  mkB ::
  bspace : TensorSpace
  barg : Nat
  bindex : Nat
deriving DecidableEq, Repr

/-- `BasisFunction.function_space`. -/
def BasisFunction.function_space (b : BasisFunction) : TensorSpace := b.bspace

/-- `BasisFunction.argument`. -/
def BasisFunction.argument (b : BasisFunction) : Nat := b.barg

/-- `BasisFunction.index`. -/
def BasisFunction.index (b : BasisFunction) : Nat := b.bindex

/-- `BasisFunction.rank`, delegating to the space. -/
def BasisFunction.rank (b : BasisFunction) : Nat := b.bspace.srank

/-- `BasisFunction.num_components`, delegating to the space. -/
def BasisFunction.num_components (b : BasisFunction) : Nat := b.bspace.sncomp

/-- `BasisFunction.ndim`, delegating to the space. -/
def BasisFunction.ndim (b : BasisFunction) : Nat := b.bspace.sndim

/-- `BasisFunction.__getitem__` (the rank-2 assertion is checked by the
callers in the embedded fragment): component i handle, same role,
index = i. -/
def BasisFunction.getitem (b : BasisFunction) (i : Nat) : BasisFunction :=
  ⟨b.bspace.getitem i, b.barg, i⟩

/-- The state of an `Expr` object: a basis plus the three aligned tensors
`terms` (C,T,D), `scales` (C,T) and `indices` (C,T). -/
structure Expr where
  mkE ::
  ebasis : BasisFunction
  eterms : Ten3 Int
  escales : Mat ℚ
  eindices : Mat Int
deriving DecidableEq, Repr

/-- `Expr.basis`. -/
def Expr.basis (e : Expr) : BasisFunction := e.ebasis

/-- `Expr.function_space`. -/
def Expr.function_space (e : Expr) : TensorSpace := e.ebasis.function_space

/-- `Expr.terms`. -/
def Expr.terms (e : Expr) : Ten3 Int := e.eterms

/-- `Expr.scales`. -/
def Expr.scales (e : Expr) : Mat ℚ := e.escales

/-- `Expr.indices`. -/
def Expr.indices (e : Expr) : Mat Int := e.eindices

/-- `Expr.argument`, delegating to the basis. -/
def Expr.argument (e : Expr) : Nat := e.ebasis.argument

/-- `Expr.num_components` = `terms.shape[0]`. -/
def Expr.num_components (e : Expr) : Nat := e.eterms.length

/-- `Expr.num_terms` = `terms.shape[1]` (length of a component row; all rows
agree on a rectangular tensor). -/
def Expr.num_terms (e : Expr) : Nat := (e.eterms.headD []).length

/-- `Expr.dim` = `terms.shape[2]`. -/
def Expr.dim (e : Expr) : Nat := ((e.eterms.headD []).headD []).length

/-- `Expr.expr_rank`: 1 when `terms.shape[0] == 1`, else 2. -/
def Expr.expr_rank (e : Expr) : Nat := if e.eterms.length = 1 then 1 else 2

/-- `Expr.rank`, the rank of the basis. -/
def Expr.rank (e : Expr) : Nat := e.ebasis.rank

/-- Number of elements of a (C,T) tensor, i.e. `np.prod(a.shape)` for a
rectangular array. -/
def matSize {α : Type} (m : Mat α) : Nat := (m.map List.length).sum

/-- Embedding of `Expr.__init__`: omitted tensors are derived from the basis
(identity form), then the size assertion
`np.prod(scales.shape) == num_terms * num_components` is checked. -/
def exprMk (basis : BasisFunction) (terms : Option (Ten3 Int))
    (scales : Option (Mat ℚ)) (indices : Option (Mat Int)) :
    Except PyErr Expr :=
  let C := basis.function_space.sncomp
  let nd := basis.function_space.sndim
  let t : Ten3 Int := terms.getD (List.replicate C [List.replicate nd 0])
  let s : Mat ℚ := scales.getD (List.replicate C [1])
  let ix0 : Mat Int := (List.range C).map (fun c => [(c : Int)])
  let ix : Mat Int := indices.getD
    (if ix0.length = 1 ∧ (ix0.headD []).length = 1
     then ix0.set 0 [(basis.index : Int)] else ix0)
  let e : Expr := ⟨basis, t, s, ix⟩
  if matSize s = e.num_terms * e.num_components then .ok e
  else .error .assertionError

/-- Rectangularity of the three tensors of a live `Expr` (every numpy-backed
`Expr` satisfies this) together with a nonempty component axis. -/
def Expr.WF (e : Expr) : Prop :=
  1 ≤ e.eterms.length ∧
  (∀ r ∈ e.eterms, r.length = e.num_terms ∧ ∀ q ∈ r, q.length = e.dim) ∧
  e.escales.length = e.eterms.length ∧
  (∀ r ∈ e.escales, r.length = e.num_terms) ∧
  e.eindices.length = e.eterms.length ∧
  (∀ r ∈ e.eindices, r.length = e.num_terms)

instance (e : Expr) : Decidable e.WF := by
  unfold Expr.WF; infer_instance

/-- Concatenation of two (C,T) tensors along the term axis
(`np.concatenate(..., axis=1)`). -/
def cat2 {α : Type} (x y : Mat α) : Mat α := List.zipWith (· ++ ·) x y

/-- Concatenation of two (C,T,D) tensors along the term axis
(`np.concatenate(..., axis=1)`). -/
def cat3 {α : Type} (x y : Ten3 α) : Ten3 α := List.zipWith (· ++ ·) x y

/-- Elementwise negation of a (C,T) tensor (`-a`). -/
def matNeg (m : Mat ℚ) : Mat ℚ := m.map (fun r => r.map (fun x => -x))

/-- Elementwise scalar multiplication of a (C,T) tensor (`a * c`). -/
def matMul (m : Mat ℚ) (c : ℚ) : Mat ℚ := m.map (fun r => r.map (fun x => x * c))

/-- The loop of the tuple branch of `__mul__`/`__imul__`:
`for i in range(dim): assert isinstance(a[i], Number); sc[i] = sc[i]*a[i]`.
Returns the outcome together with the state of `sc` when the loop stops, so
that a mid-loop assertion failure leaves the already-scaled rows visible. -/
def tupScaleGo : List PyVal → Nat → Mat ℚ → Except PyErr Unit × Mat ℚ
  | [], _, sc => (.ok (), sc)
  | .num c :: rest, i, sc =>
      tupScaleGo rest (i + 1) (sc.set i ((sc.getD i []).map (fun x => x * c)))
  | .nonNum :: _, _, sc => (.error .assertionError, sc)

/-- `Expr.__getitem__`: row i of each tensor, reshaped to leading dimension
1; the basis is replaced by its i-th component when the basis has rank 2.
The result is built through `Expr.__init__` (size assertion included). -/
def Expr.getitem (e : Expr) (i : Nat) : Except PyErr Expr :=
  let basis := if e.rank = 2 then e.ebasis.getitem i else e.ebasis
  exprMk basis (some [e.eterms.getD i []]) (some [e.escales.getD i []])
    (some [e.eindices.getD i []])

/-- `Expr.__mul__`: a fresh scales copy is multiplied (uniformly for a
number; row-by-row for a tuple on an expr of rank 2), then a new `Expr` is
built from copies through `Expr.__init__`.  Unsupported operand types fail
without building anything. -/
def Expr.mul (e : Expr) (a : MulArg) : Except PyErr Expr :=
  if e.expr_rank = 1 then
    match a with
    | .num c => exprMk e.ebasis (some e.eterms) (some (matMul e.escales c))
        (some e.eindices)
    | _ => .error .assertionError
  else
    match a with
    | .tup cs =>
        if cs.length = e.dim then
          match tupScaleGo cs 0 e.escales with
          | (.ok _, sc) => exprMk e.ebasis (some e.eterms) (some sc)
              (some e.eindices)
          | (.error err, _) => .error err
        else .error .assertionError
    | .num c => exprMk e.ebasis (some e.eterms) (some (matMul e.escales c))
        (some e.eindices)
    | .other => .error .notImplementedError

/-- Outcome of an in-place operation: the raised-or-returned result and the
final state of `self`, partial mutations included. -/
structure InPlaceOut where
  res : Except PyErr Unit
  self1 : Expr
deriving Repr

/-- `Expr.__imul__`: multiplies `self._scales` in place.  The tuple branch
checks the length first but validates each entry only inside the mutation
loop, exactly as the source does. -/
def Expr.imul (e : Expr) (a : MulArg) : InPlaceOut :=
  if e.expr_rank = 1 then
    match a with
    | .num c => ⟨.ok (), { e with escales := matMul e.escales c }⟩
    | _ => ⟨.error .assertionError, e⟩
  else
    match a with
    | .tup cs =>
        if cs.length = e.dim then
          match tupScaleGo cs 0 e.escales with
          | (r, sc) => ⟨r, { e with escales := sc }⟩
        else ⟨.error .assertionError, e⟩
    | .num c => ⟨.ok (), { e with escales := matMul e.escales c }⟩
    | .other => ⟨.error .notImplementedError, e⟩

/-- Outcome of a binary operation on `Expr`s: the result (or exception) and
the final states of both operands. -/
structure BinOut where
  res : Except PyErr Expr
  self1 : Expr
  arg1 : Expr
deriving Repr

/-- The compatibility assertions shared by `__add__`, `__iadd__`, `__sub__`
and `__isub__`: equal `num_components()`, identical `function_space()` and
equal `argument()`. -/
def Expr.compat (e a : Expr) : Prop :=
  e.num_components = a.num_components ∧
  e.function_space = a.function_space ∧ e.argument = a.argument

instance (e a : Expr) : Decidable (e.compat a) := by
  unfold Expr.compat; infer_instance

/-- `Expr.__add__` (operand already an `Expr`): after the compatibility
assertions, builds a new `Expr` from the three term-axis concatenations
through `Expr.__init__`.  Neither operand is written. -/
def Expr.add (e a : Expr) : BinOut :=
  if e.compat a then
    match exprMk e.ebasis (some (cat3 e.eterms a.eterms))
        (some (cat2 e.escales a.escales)) (some (cat2 e.eindices a.eindices)) with
    | .ok r => ⟨.ok r, e, a⟩
    | .error err => ⟨.error err, e, a⟩
  else ⟨.error .assertionError, e, a⟩

/-- `Expr.__iadd__`: same assertions, then the three tensors of `self` are
reassigned to the concatenations (no constructor, hence no size assertion);
returns `self`. -/
def Expr.iadd (e a : Expr) : BinOut :=
  if e.compat a then
    let e1 : Expr := ⟨e.ebasis, cat3 e.eterms a.eterms,
      cat2 e.escales a.escales, cat2 e.eindices a.eindices⟩
    ⟨.ok e1, e1, a⟩
  else ⟨.error .assertionError, e, a⟩

/-- `Expr.__sub__`: like `__add__` but the addend's scales are negated
before concatenation. -/
def Expr.sub (e a : Expr) : BinOut :=
  if e.compat a then
    match exprMk e.ebasis (some (cat3 e.eterms a.eterms))
        (some (cat2 e.escales (matNeg a.escales)))
        (some (cat2 e.eindices a.eindices)) with
    | .ok r => ⟨.ok r, e, a⟩
    | .error err => ⟨.error err, e, a⟩
  else ⟨.error .assertionError, e, a⟩

/-- `Expr.__isub__`: in-place variant of `__sub__`. -/
def Expr.isub (e a : Expr) : BinOut :=
  if e.compat a then
    let e1 : Expr := ⟨e.ebasis, cat3 e.eterms a.eterms,
      cat2 e.escales (matNeg a.escales), cat2 e.eindices a.eindices⟩
    ⟨.ok e1, e1, a⟩
  else ⟨.error .assertionError, e, a⟩

/-- `Expr.__neg__`: a new `Expr` (through `Expr.__init__`) with negated
scales, terms and indices copied. -/
def Expr.neg (e : Expr) : Except PyErr Expr :=
  exprMk e.ebasis (some e.eterms) (some (matNeg e.escales)) (some e.eindices)

/-- The `bc` argument of the `Basis` factory when it is not `None`: a tuple
of boundary values, a string, or any other Python object. -/
inductive BCVal where
  | tup (vals : List ℚ)
  | str (s : String)
  | other
deriving DecidableEq, Repr

/-- The concrete 1D basis constructor the factory dispatches to (the
constructors themselves live in the external `fourier`, `chebyshev` and
`legendre` packages). -/
inductive BasisChoice where
  | fourierC2C
  | fourierR2C
  | chebBasis
  | chebShenDirichlet
  | chebShenNeumann
  | chebShenBiharmonic
  | legBasis
  | legShenDirichlet
  | legShenNeumann
  | legShenBiharmonic
deriving DecidableEq, Repr

/-- The keyword dictionary `par` the factory hands to the chosen
constructor; a `none` field models a key that was never inserted. -/
structure Par where
  plan : Bool
  domain : Option (ℚ × ℚ)
  padding_factor : Option ℚ
  dealias_direct : Option Bool
  quad : Option String
  bc : Option (List ℚ)
  scaled : Option Bool
deriving DecidableEq, Repr

/-- Whether `np.dtype(dtype).char` is one of the complex character codes
`'FDG'`. -/
def complexChar (c : Char) : Bool := c = 'F' ∨ c = 'D' ∨ c = 'G'

/-- ASCII lowercase of one character (`str.lower` acts per character; the
family and boundary-condition names are all ASCII). -/
def charLower (c : Char) : Char :=
  if 'A' ≤ c ∧ c ≤ 'Z' then Char.ofNat (c.toNat + 32) else c

/-- `str.lower` on an ASCII string. -/
def strLower (s : String) : String := ⟨s.data.map charLower⟩

/-- Embedding of the `Basis` factory: resolves the family string (short
forms accepted, case-insensitive), validates `quad`/`scaled`, dispatches on
`bc`, and returns the chosen constructor with the `par` dictionary it would
receive.  For Chebyshev/Legendre with an unrecognized `bc` string no branch
assigns the constructor variable, so the trailing `return B(N, **par)`
raises `UnboundLocalError`. -/
def Basis (family : String) (bc : Option BCVal) (dtypeChar : Char)
    (quad : Option String) (domain : Option (ℚ × ℚ)) (scaled : Option Bool)
    (plan : Bool) (padding_factor : ℚ) (dealias_direct : Bool) :
    Except PyErr (BasisChoice × Par) :=
  let par : Par := ⟨plan, domain, none, none, none, none, none⟩
  if strLower family = "fourier" ∨ strLower family = "f" then
    let par := { par with padding_factor := some padding_factor,
                          dealias_direct := some dealias_direct }
    if complexChar dtypeChar then .ok (.fourierC2C, par)
    else .ok (.fourierR2C, par)
  else if strLower family = "chebyshev" ∨ strLower family = "c" then
    match (match quad with
           | Option.none => Except.ok par
           | some q =>
               if q = "GC" ∨ q = "GL" then .ok { par with quad := some q }
               else .error PyErr.assertionError) with
    | .error err => .error err
    | .ok par =>
      match bc with
      | Option.none => .ok (.chebBasis, par)
      | some (.tup vals) =>
          if vals.length = 2 then
            .ok (.chebShenDirichlet, { par with bc := some vals })
          else .error .assertionError
      | some (.str s) =>
          if strLower s = "dirichlet" then .ok (.chebShenDirichlet, par)
          else if strLower s = "neumann" then .ok (.chebShenNeumann, par)
          else if strLower s = "biharmonic" then .ok (.chebShenBiharmonic, par)
          else .error .unboundLocalError
      | some .other => .error .notImplementedError
  else if strLower family = "legendre" ∨ strLower family = "l" then
    match (match quad with
           | Option.none => Except.ok par
           | some q =>
               if q = "LG" ∨ q = "GL" then .ok { par with quad := some q }
               else .error PyErr.assertionError) with
    | .error err => .error err
    | .ok par =>
      let par := match scaled with
                 | Option.none => par
                 | some b => { par with scaled := some b }
      match bc with
      | Option.none => .ok (.legBasis, par)
      | some (.tup vals) =>
          if vals.length = 2 then
            .ok (.legShenDirichlet, { par with bc := some vals })
          else .error .assertionError
      | some (.str s) =>
          if strLower s = "dirichlet" then .ok (.legShenDirichlet, par)
          else if strLower s = "neumann" then .ok (.legShenNeumann, par)
          else if strLower s = "biharmonic" then .ok (.legShenBiharmonic, par)
          else .error .unboundLocalError
      | some .other => .error .notImplementedError
  else .error .notImplementedError

/-- The invariant `Expr.__init__` asserts: the scales tensor has exactly
`num_terms * num_components` entries.  Every live `Expr` satisfies it. -/
def Expr.sizeOK (e : Expr) : Prop :=
  matSize e.escales = e.num_terms * e.num_components

instance (e : Expr) : Decidable e.sizeOK := by
  unfold Expr.sizeOK; infer_instance

/-- Structural description of the `__mul__`/`__imul__` tuple loop started at
row 0: scale the rows one by one, stopping (with the partial state) at the
first non-number entry. -/
def scaleRowsSpec : List PyVal → Mat ℚ → Except PyErr Unit × Mat ℚ
  | [], sc => (.ok (), sc)
  | .nonNum :: _, sc => (.error .assertionError, sc)
  | .num _ :: rest, [] => ((scaleRowsSpec rest []).1, [])
  | .num c :: rest, r :: rs =>
      ((scaleRowsSpec rest rs).1,
        r.map (fun x => x * c) :: (scaleRowsSpec rest rs).2)

/-! ### Allocation-instrumented layer

numpy array objects are modelled with an allocation tag so that "the result
holds freshly allocated arrays, distinct from the operands'" is statable.
`np.concatenate` and `.copy()` (and the arithmetic on copies) always return
new arrays, and the non-in-place `Expr` methods assign nothing to their
operands' fields, so each success path tags its three result arrays with
fresh tags from an allocation counter and returns the operands' array
objects untouched.  Values are those of the untagged embedding. -/

/-- A numpy array object: an allocation tag plus its contents. -/
structure ArrT (α : Type) where
  tag : Nat
  val : α
deriving DecidableEq, Repr

/-- The state of an `Expr` whose three tensors are array objects. -/
structure ExprT where
  tbasis : BasisFunction
  tterms : ArrT (Ten3 Int)
  tscales : ArrT (Mat ℚ)
  tindices : ArrT (Mat Int)
deriving DecidableEq, Repr

/-- Forget the allocation tags. -/
def ExprT.toExpr (e : ExprT) : Expr :=
  ⟨e.tbasis, e.tterms.val, e.tscales.val, e.tindices.val⟩

/-- The tags of the three tensors of an `ExprT`. -/
def ExprT.tags (e : ExprT) : List Nat :=
  [e.tterms.tag, e.tscales.tag, e.tindices.tag]

/-- `__add__` with allocation tracking: on success the three concatenations
are fresh arrays; the operands' array objects are returned unchanged. -/
def ExprT.addT (e a : ExprT) (ctr : Nat) :
    (Except PyErr ExprT × Nat) × ExprT × ExprT :=
  match (Expr.add e.toExpr a.toExpr).res with
  | .ok r => ((.ok ⟨e.tbasis, ⟨ctr, r.eterms⟩, ⟨ctr + 1, r.escales⟩,
      ⟨ctr + 2, r.eindices⟩⟩, ctr + 3), e, a)
  | .error err => ((.error err, ctr), e, a)

/-- `__sub__` with allocation tracking. -/
def ExprT.subT (e a : ExprT) (ctr : Nat) :
    (Except PyErr ExprT × Nat) × ExprT × ExprT :=
  match (Expr.sub e.toExpr a.toExpr).res with
  | .ok r => ((.ok ⟨e.tbasis, ⟨ctr, r.eterms⟩, ⟨ctr + 1, r.escales⟩,
      ⟨ctr + 2, r.eindices⟩⟩, ctr + 3), e, a)
  | .error err => ((.error err, ctr), e, a)

/-- `__neg__` with allocation tracking (`.copy()` / `-(...)` allocate). -/
def ExprT.negT (e : ExprT) (ctr : Nat) :
    (Except PyErr ExprT × Nat) × ExprT :=
  match Expr.neg e.toExpr with
  | .ok r => ((.ok ⟨e.tbasis, ⟨ctr, r.eterms⟩, ⟨ctr + 1, r.escales⟩,
      ⟨ctr + 2, r.eindices⟩⟩, ctr + 3), e)
  | .error err => ((.error err, ctr), e)

/-- `__mul__` with allocation tracking (the scales copy and the two
`.copy()` calls allocate). -/
def ExprT.mulT (e : ExprT) (m : MulArg) (ctr : Nat) :
    (Except PyErr ExprT × Nat) × ExprT :=
  match Expr.mul e.toExpr m with
  | .ok r => ((.ok ⟨e.tbasis, ⟨ctr, r.eterms⟩, ⟨ctr + 1, r.escales⟩,
      ⟨ctr + 2, r.eindices⟩⟩, ctr + 3), e)
  | .error err => ((.error err, ctr), e)

/-! ### Concrete inputs used by the witnesses -/

/-- A basis over a scalar 2-dimensional space. -/
def bW0 : BasisFunction := ⟨⟨0, 2, 1, 1⟩, 0, 0⟩

/-- A scalar one-term expression (C=1, T=1, D=2). -/
def wA : Expr := ⟨bW0, [[[1, 0]]], [[2]], [[0]]⟩

/-- A scalar two-term expression (C=1, T=2, D=2) over the same space. -/
def wB : Expr := ⟨bW0, [[[0, 1], [2, 0]]], [[3, 5]], [[0, 0]]⟩

/-- A basis over a vector 2-dimensional space (rank 2). -/
def bW2 : BasisFunction := ⟨⟨1, 2, 2, 2⟩, 1, 0⟩

/-- A vector expression (C=2, T=1, D=2, expr_rank 2). -/
def wV : Expr := ⟨bW2, [[[1, 0]], [[0, 1]]], [[2], [3]], [[0], [1]]⟩

/-- `wA` and `wB` as tagged array objects with tags 0..5. -/
def wAT : ExprT := ⟨bW0, ⟨0, wA.eterms⟩, ⟨1, wA.escales⟩, ⟨2, wA.eindices⟩⟩

/-- Tagged counterpart of `wB`. -/
def wBT : ExprT := ⟨bW0, ⟨3, wB.eterms⟩, ⟨4, wB.escales⟩, ⟨5, wB.eindices⟩⟩

/-! ### Helper lemmas -/

theorem matSize_nil {α : Type} : matSize ([] : Mat α) = 0 := rfl

theorem matSize_cons {α : Type} (r : List α) (m : Mat α) :
    matSize (r :: m) = r.length + matSize m := by
  simp [matSize]

theorem matSize_rows {α : Type} {m : Mat α} {T : Nat}
    (h : ∀ r ∈ m, r.length = T) : matSize m = m.length * T := by
  induction m with
  | nil => simp [matSize]
  | cons r rs ih =>
      have hr : r.length = T := h r (by simp)
      have hrs : matSize rs = rs.length * T := ih (fun x hx => h x (by simp [hx]))
      rw [matSize_cons, hr, hrs, List.length_cons, Nat.succ_mul]
      omega

theorem matSize_cat2 {α : Type} {x y : Mat α} (h : x.length = y.length) :
    matSize (cat2 x y) = matSize x + matSize y := by
  induction x generalizing y with
  | nil =>
      cases y with
      | nil => simp [cat2, matSize]
      | cons t ts => simp at h
  | cons r rs ih =>
      cases y with
      | nil => simp at h
      | cons t ts =>
          have h' : rs.length = ts.length := by simpa using h
          simp only [cat2, List.zipWith_cons_cons, matSize_cons] at *
          rw [ih h']
          simp
          omega

theorem matSize_matNeg (m : Mat ℚ) : matSize (matNeg m) = matSize m := by
  simp [matNeg, matSize, Function.comp_def]

theorem matSize_matMul (m : Mat ℚ) (c : ℚ) : matSize (matMul m c) = matSize m := by
  simp [matMul, matSize, Function.comp_def]

theorem exprMk_some (b : BasisFunction) (t : Ten3 Int) (s : Mat ℚ)
    (ix : Mat Int) (h : matSize s = (t.headD []).length * t.length) :
    exprMk b (some t) (some s) (some ix) = .ok ⟨b, t, s, ix⟩ := by
  unfold exprMk
  simp [Expr.num_terms, Expr.num_components, h]

theorem tupScaleGo_cons_shift (cs : List PyVal) (j : Nat) (r : List ℚ)
    (rs : Mat ℚ) :
    tupScaleGo cs (j + 1) (r :: rs) =
      ((tupScaleGo cs j rs).1, r :: (tupScaleGo cs j rs).2) := by
  induction cs generalizing j r rs with
  | nil => simp [tupScaleGo]
  | cons c rest ih =>
      cases c with
      | num q =>
          simp only [tupScaleGo, List.getD_cons_succ, List.set_cons_succ]
          exact ih (j + 1) r _
      | nonNum => simp [tupScaleGo]

theorem tupScaleGo_nil (cs : List PyVal) (j : Nat) :
    tupScaleGo cs j ([] : Mat ℚ) = ((scaleRowsSpec cs []).1, []) := by
  induction cs generalizing j with
  | nil => simp [tupScaleGo, scaleRowsSpec]
  | cons c rest ih =>
      cases c with
      | num q => simpa [tupScaleGo, scaleRowsSpec] using ih (j + 1)
      | nonNum => simp [tupScaleGo, scaleRowsSpec]

theorem tupScaleGo_eq_spec (cs : List PyVal) (sc : Mat ℚ) :
    tupScaleGo cs 0 sc = scaleRowsSpec cs sc := by
  induction cs generalizing sc with
  | nil => simp [tupScaleGo, scaleRowsSpec]
  | cons c rest ih =>
      cases c with
      | num q =>
          cases sc with
          | nil => simpa [tupScaleGo, scaleRowsSpec] using tupScaleGo_nil rest 1
          | cons r rs =>
              simp only [tupScaleGo, scaleRowsSpec, List.getD_cons_zero,
                List.set_cons_zero]
              rw [tupScaleGo_cons_shift, ih]
      | nonNum => simp [tupScaleGo, scaleRowsSpec]

theorem scaleRowsSpec_nums_fst (qs : List ℚ) (sc : Mat ℚ) :
    (scaleRowsSpec (qs.map .num) sc).1 = .ok () := by
  induction qs generalizing sc with
  | nil => simp [scaleRowsSpec]
  | cons q qs ih =>
      cases sc with
      | nil => simpa [scaleRowsSpec] using ih []
      | cons r rs => simpa [scaleRowsSpec] using ih rs

theorem scaleRowsSpec_mixed_fst (qs : List ℚ) (rest : List PyVal)
    (sc : Mat ℚ) :
    (scaleRowsSpec (qs.map .num ++ .nonNum :: rest) sc).1 =
      .error .assertionError := by
  induction qs generalizing sc with
  | nil => simp [scaleRowsSpec]
  | cons q qs ih =>
      cases sc with
      | nil => simpa [scaleRowsSpec] using ih []
      | cons r rs => simpa [scaleRowsSpec] using ih rs

theorem scaleRowsSpec_append_snd (qs : List ℚ) (tail : List PyVal)
    (htail : ∀ sc' : Mat ℚ, (scaleRowsSpec tail sc').2 = sc')
    (sc : Mat ℚ) (i : Nat) :
    ((scaleRowsSpec (qs.map .num ++ tail) sc).2).getD i [] =
      if i < qs.length then
        (sc.getD i []).map (fun x => x * qs.getD i 0)
      else sc.getD i [] := by
  induction qs generalizing sc i with
  | nil => simp [htail]
  | cons q qs ih =>
      cases sc with
      | nil =>
          simp only [List.map_cons, List.cons_append, scaleRowsSpec]
          cases i <;> simp
      | cons r rs =>
          cases i with
          | zero => simp [scaleRowsSpec]
          | succ j =>
              simp only [List.map_cons, List.cons_append, scaleRowsSpec,
                List.getD_cons_succ, List.length_cons, List.append_eq]
              rw [ih rs j]
              simp only [Nat.succ_lt_succ_iff]

theorem scaleRowsSpec_snd_length (cs : List PyVal) (sc : Mat ℚ) :
    (scaleRowsSpec cs sc).2.length = sc.length := by
  induction cs generalizing sc with
  | nil => simp [scaleRowsSpec]
  | cons c rest ih =>
      cases c with
      | num q =>
          cases sc with
          | nil => simp [scaleRowsSpec]
          | cons r rs => simpa [scaleRowsSpec] using ih rs
      | nonNum => simp [scaleRowsSpec]

theorem matSize_scaleRowsSpec (cs : List PyVal) (sc : Mat ℚ) :
    matSize (scaleRowsSpec cs sc).2 = matSize sc := by
  induction cs generalizing sc with
  | nil => simp [scaleRowsSpec]
  | cons c rest ih =>
      cases c with
      | num q =>
          cases sc with
          | nil => simp [scaleRowsSpec, matSize]
          | cons r rs =>
              simp only [scaleRowsSpec, matSize_cons, List.length_map]
              rw [ih rs]
      | nonNum => simp [scaleRowsSpec]

theorem exprMk_default (b : BasisFunction) (hC : 1 ≤ b.bspace.sncomp) :
    exprMk b none none none = .ok
      ⟨b, List.replicate b.bspace.sncomp [List.replicate b.bspace.sndim 0],
        List.replicate b.bspace.sncomp [1],
        if b.bspace.sncomp = 1 then [[(b.bindex : Int)]]
        else (List.range b.bspace.sncomp).map (fun c => [(c : Int)])⟩ := by
  obtain ⟨n, hn⟩ : ∃ n, b.bspace.sncomp = n + 1 := ⟨b.bspace.sncomp - 1, by omega⟩
  unfold exprMk
  cases n with
  | zero =>
      simp [hn, BasisFunction.function_space, BasisFunction.index, matSize,
        Expr.num_terms, Expr.num_components, List.replicate_succ,
        List.range_succ]
  | succ m =>
      have hs : matSize (([1] : List ℚ) :: [1] :: List.replicate m [1]) =
          m + 1 + 1 := by
        rw [matSize_cons, matSize_cons, matSize_rows (T := 1)
          (fun r hr => by rw [List.eq_of_mem_replicate hr]; rfl)]
        simp
        omega
      simp [hn, BasisFunction.function_space, BasisFunction.index,
        Expr.num_terms, Expr.num_components, List.replicate_succ,
        List.range_succ_eq_map, hs]

theorem sizeOK_of_WF (a : Expr) (h : a.WF) : a.sizeOK := by
  obtain ⟨_, _, haSL, haS, _, _⟩ := h
  show matSize a.escales = a.num_terms * a.num_components
  rw [matSize_rows haS, haSL]
  exact Nat.mul_comm _ _

theorem matNeg_matNeg (m : Mat ℚ) : matNeg (matNeg m) = m := by
  simp [matNeg, List.map_map, Function.comp_def]

theorem neg_ok (a : Expr) (h : a.sizeOK) :
    a.neg = .ok ⟨a.ebasis, a.eterms, matNeg a.escales, a.eindices⟩ :=
  exprMk_some _ _ _ _ (by rw [matSize_matNeg]; exact h)

theorem getD_mem {α : Type} {l : List α} {i : Nat} (d : α)
    (h : i < l.length) : l.getD i d ∈ l := by
  rw [List.getD_eq_getElem?_getD, List.getElem?_eq_getElem h]
  exact List.getElem_mem h

theorem WF_scales_row (e : Expr) (hW : e.WF) (i : Nat)
    (hi : i < e.eterms.length) :
    (e.escales.getD i []).length = e.num_terms := by
  obtain ⟨_, _, hSL, hS, _, _⟩ := hW
  exact hS _ (getD_mem _ (by rw [hSL]; exact hi))

theorem WF_terms_row (e : Expr) (hW : e.WF) (i : Nat)
    (hi : i < e.eterms.length) :
    (e.eterms.getD i []).length = e.num_terms :=
  (hW.2.1 _ (getD_mem _ hi)).1

theorem WF_indices_row (e : Expr) (hW : e.WF) (i : Nat)
    (hi : i < e.eterms.length) :
    (e.eindices.getD i []).length = e.num_terms := by
  obtain ⟨_, _, _, _, hIL, hI⟩ := hW
  exact hI _ (getD_mem _ (by rw [hIL]; exact hi))

theorem getitem_ok (e : Expr) (i : Nat)
    (hTa : (e.escales.getD i []).length = (e.eterms.getD i []).length) :
    e.getitem i = .ok ⟨if e.rank = 2 then e.ebasis.getitem i else e.ebasis,
      [e.eterms.getD i []], [e.escales.getD i []], [e.eindices.getD i []]⟩ := by
  unfold Expr.getitem
  apply exprMk_some
  simp only [matSize, List.map_cons, List.map_nil, List.sum_cons,
    List.sum_nil, List.headD_cons, List.length_cons, List.length_nil,
    Nat.add_zero, Nat.zero_add, Nat.mul_one]
  omega

theorem matMul_matMul (m : Mat ℚ) (c1 c2 : ℚ) :
    matMul (matMul m c1) c2 =
      m.map (fun row => row.map (fun x => x * c1 * c2)) := by
  simp [matMul, List.map_map, Function.comp_def]

theorem cat3_head_length {α : Type} (x y : Ten3 α) (Tx Ty : Nat)
    (hx : 1 ≤ x.length) (hxy : x.length = y.length)
    (hxT : ∀ r ∈ x, r.length = Tx) (hyT : ∀ r ∈ y, r.length = Ty) :
    ((cat3 x y).headD []).length = Tx + Ty := by
  cases x with
  | nil => simp at hx
  | cons rx xs =>
      cases y with
      | nil => simp at hxy
      | cons ry ys =>
          simp only [cat3, List.zipWith_cons_cons, List.headD_cons,
            List.length_append]
          rw [hxT rx (by simp), hyT ry (by simp)]

theorem cat3_length {α : Type} (x y : Ten3 α) (hxy : x.length = y.length) :
    (cat3 x y).length = x.length := by
  simp [cat3, List.length_zipWith, hxy]

theorem add_ok (a b : Expr) (hWa : a.WF) (hWb : b.WF) (hc : a.compat b) :
    a.add b = ⟨.ok ⟨a.ebasis, cat3 a.eterms b.eterms,
      cat2 a.escales b.escales, cat2 a.eindices b.eindices⟩, a, b⟩ ∧
    ((cat3 a.eterms b.eterms).headD []).length =
      a.num_terms + b.num_terms := by
  obtain ⟨haC, haT, haSL, haS, haIL, haI⟩ := hWa
  obtain ⟨hbC, hbT, hbSL, hbS, hbIL, hbI⟩ := hWb
  obtain ⟨hcC, hcF, hcA⟩ := hc
  have hCC : a.eterms.length = b.eterms.length := hcC
  have hhead : ((cat3 a.eterms b.eterms).headD []).length =
      a.num_terms + b.num_terms :=
    cat3_head_length _ _ _ _ haC hCC (fun r hr => (haT r hr).1)
      (fun r hr => (hbT r hr).1)
  have hlen : a.escales.length = b.escales.length := by
    rw [haSL, hbSL, hCC]
  have hchk : matSize (cat2 a.escales b.escales) =
      ((cat3 a.eterms b.eterms).headD []).length *
        (cat3 a.eterms b.eterms).length := by
    rw [matSize_cat2 hlen, matSize_rows haS, matSize_rows hbS, hhead,
      cat3_length _ _ hCC, haSL, hbSL, ← hCC]
    ring
  have hmk := exprMk_some a.ebasis (cat3 a.eterms b.eterms)
    (cat2 a.escales b.escales) (cat2 a.eindices b.eindices) hchk
  refine ⟨?_, hhead⟩
  unfold Expr.add
  rw [if_pos ⟨hcC, hcF, hcA⟩, hmk]

theorem sub_ok (a b : Expr) (hWa : a.WF) (hWb : b.WF) (hc : a.compat b) :
    a.sub b = ⟨.ok ⟨a.ebasis, cat3 a.eterms b.eterms,
      cat2 a.escales (matNeg b.escales), cat2 a.eindices b.eindices⟩,
      a, b⟩ := by
  obtain ⟨haC, haT, haSL, haS, haIL, haI⟩ := hWa
  obtain ⟨hbC, hbT, hbSL, hbS, hbIL, hbI⟩ := hWb
  obtain ⟨hcC, hcF, hcA⟩ := hc
  have hCC : a.eterms.length = b.eterms.length := hcC
  have hhead : ((cat3 a.eterms b.eterms).headD []).length =
      a.num_terms + b.num_terms :=
    cat3_head_length _ _ _ _ haC hCC (fun r hr => (haT r hr).1)
      (fun r hr => (hbT r hr).1)
  have hlen : a.escales.length = (matNeg b.escales).length := by
    simp only [matNeg, List.length_map]
    rw [haSL, hbSL, hCC]
  have hchk : matSize (cat2 a.escales (matNeg b.escales)) =
      ((cat3 a.eterms b.eterms).headD []).length *
        (cat3 a.eterms b.eterms).length := by
    rw [matSize_cat2 hlen, matSize_matNeg, matSize_rows haS,
      matSize_rows hbS, hhead, cat3_length _ _ hCC, haSL, hbSL, ← hCC]
    ring
  have hmk := exprMk_some a.ebasis (cat3 a.eterms b.eterms)
    (cat2 a.escales (matNeg b.escales)) (cat2 a.eindices b.eindices) hchk
  unfold Expr.sub
  rw [if_pos ⟨hcC, hcF, hcA⟩, hmk]

/-! ### Claims -/

/-- C1: over a space with C components and D dimensions, `Expr(b)` built
from a plain `BasisFunction` with terms/scales/indices omitted is the
identity operator: `num_terms() == 1`, terms is the all-zero (C,1,D)
tensor, scales is the all-one (C,1) tensor, and `indices()[c,0] == c` for a
vector basis while `indices()[0,0] == b.index()` for a scalar basis. -/
theorem expr_init_identity (b : BasisFunction) (hC : 1 ≤ b.bspace.sncomp) :
    ∃ e : Expr, exprMk b none none none = .ok e ∧
      e.num_terms = 1 ∧
      e.eterms = List.replicate b.bspace.sncomp
        [List.replicate b.bspace.sndim 0] ∧
      e.escales = List.replicate b.bspace.sncomp [(1 : ℚ)] ∧
      (b.bspace.sncomp = 1 → e.eindices = [[(b.bindex : Int)]]) ∧
      (b.bspace.sncomp ≠ 1 →
        e.eindices = (List.range b.bspace.sncomp).map (fun c => [(c : Int)])) := by
  refine ⟨_, exprMk_default b hC, ?_, rfl, rfl, ?_, ?_⟩
  · obtain ⟨n, hn⟩ : ∃ n, b.bspace.sncomp = n + 1 :=
      ⟨b.bspace.sncomp - 1, by omega⟩
    simp [Expr.num_terms, hn, List.replicate_succ]
  · intro h; simp [h]
  · intro h; simp [h]

/-- Witness for C1: a scalar 3-dimensional basis with component index 4. -/
theorem expr_init_identity_wit :
    ∃ e : Expr,
      exprMk (BasisFunction.mkB ⟨7, 3, 1, 1⟩ 0 4) none none none = .ok e ∧
      e.num_terms = 1 ∧
      e.eterms = List.replicate 1 [List.replicate 3 0] ∧
      e.escales = List.replicate 1 [(1 : ℚ)] ∧
      ((1 : Nat) = 1 → e.eindices = [[(4 : Int)]]) ∧
      ((1 : Nat) ≠ 1 →
        e.eindices = (List.range 1).map (fun c => [(c : Int)])) :=
  expr_init_identity (BasisFunction.mkB ⟨7, 3, 1, 1⟩ 0 4) (by decide)

/-- C2: for compatible `Expr`s (equal component counts, identical function
space, equal argument) with term counts Ta and Tb, `a + b` succeeds, leaves
both operands unchanged, and its terms/scales/indices are exactly the
term-axis concatenations of the operands' tensors, order preserved and with
`num_terms() == Ta + Tb` (no merging or simplification). -/
theorem expr_add_concat (a b : Expr) (hWa : a.WF) (hWb : b.WF)
    (hc : a.compat b) :
    ∃ r : Expr, a.add b = ⟨.ok r, a, b⟩ ∧
      r.eterms = cat3 a.eterms b.eterms ∧
      r.escales = cat2 a.escales b.escales ∧
      r.eindices = cat2 a.eindices b.eindices ∧
      r.num_terms = a.num_terms + b.num_terms := by
  obtain ⟨h1, h2⟩ := add_ok a b hWa hWb hc
  exact ⟨_, h1, rfl, rfl, rfl, h2⟩

/-- Witness for C2: `wA + wB` over the same scalar space. -/
theorem expr_add_concat_wit :
    ∃ r : Expr, wA.add wB = ⟨.ok r, wA, wB⟩ ∧
      r.eterms = cat3 wA.eterms wB.eterms ∧
      r.escales = cat2 wA.escales wB.escales ∧
      r.eindices = cat2 wA.eindices wB.eindices ∧
      r.num_terms = wA.num_terms + wB.num_terms :=
  expr_add_concat wA wB (by decide) (by decide) (by decide)

/-- C4: for a rank-2 `Expr` (as many components as axes), multiplying by a
tuple of numbers of length `dim()` scales each component's row by its own
tuple entry (`(a*(c0,...))[i].scales() == a[i].scales() * ci`); multiplying
twice by scalars multiplies the scales by both factors
(`((a*c1)*c2).scales() == a.scales()*c1*c2`); and any other operand type
fails with the not-implemented error. -/
theorem expr_mul_scale (e : Expr) (hW : e.WF) (hr : e.expr_rank = 2)
    (hCD : e.num_components = e.dim) :
    (∀ qs : List ℚ, qs.length = e.dim →
      ∃ r : Expr, e.mul (.tup (qs.map .num)) = .ok r ∧
        ∀ i, i < e.num_components →
          ∃ f g, r.getitem i = .ok f ∧ e.getitem i = .ok g ∧
            f.escales = matMul g.escales (qs.getD i 0)) ∧
    (∀ c1 c2 : ℚ, ∃ r1 r2 : Expr, e.mul (.num c1) = .ok r1 ∧
      r1.mul (.num c2) = .ok r2 ∧
      r2.escales = e.escales.map (fun row => row.map (fun x => x * c1 * c2))) ∧
    e.mul .other = .error .notImplementedError := by
  have hsz := sizeOK_of_WF e hW
  have hr1 : ¬ e.expr_rank = 1 := by rw [hr]; decide
  refine ⟨?_, ?_, ?_⟩
  · intro qs hlen
    have hgo : tupScaleGo (qs.map .num) 0 e.escales =
        (.ok (), (scaleRowsSpec (qs.map .num) e.escales).2) := by
      rw [tupScaleGo_eq_spec]
      rcases hsp : scaleRowsSpec (qs.map PyVal.num) e.escales with ⟨res, sc2⟩
      have h1 := scaleRowsSpec_nums_fst qs e.escales
      rw [hsp] at h1
      simp only at h1
      rw [h1]
    have hchk : matSize (scaleRowsSpec (qs.map .num) e.escales).2 =
        (e.eterms.headD []).length * e.eterms.length := by
      rw [matSize_scaleRowsSpec]
      exact hsz
    have hmk := exprMk_some e.ebasis e.eterms
      (scaleRowsSpec (qs.map .num) e.escales).2 e.eindices hchk
    have hmul : e.mul (.tup (qs.map .num)) =
        .ok ⟨e.ebasis, e.eterms, (scaleRowsSpec (qs.map .num) e.escales).2,
          e.eindices⟩ := by
      unfold Expr.mul
      rw [if_neg hr1]
      simp only [List.length_map, hlen, if_pos, hgo]
      exact hmk
    refine ⟨_, hmul, ?_⟩
    intro i hi
    have hiC : i < e.eterms.length := hi
    have hrow : ((scaleRowsSpec (qs.map .num) e.escales).2).getD i [] =
        (e.escales.getD i []).map (fun x => x * qs.getD i 0) := by
      have h2 := scaleRowsSpec_append_snd qs [] (fun _ => rfl) e.escales i
      rw [List.append_nil] at h2
      rw [h2, if_pos (by rw [hlen]; exact hCD ▸ hi)]
    refine ⟨_, _, getitem_ok _ i ?_, getitem_ok e i ?_, ?_⟩
    · show ((scaleRowsSpec (qs.map .num) e.escales).2.getD i []).length = _
      rw [hrow, List.length_map, WF_scales_row e hW i hiC,
        WF_terms_row e hW i hiC]
    · rw [WF_scales_row e hW i hiC, WF_terms_row e hW i hiC]
    · show [(scaleRowsSpec (qs.map .num) e.escales).2.getD i []] =
        matMul [e.escales.getD i []] (qs.getD i 0)
      rw [hrow]
      rfl
  · intro c1 c2
    have h1 : e.mul (.num c1) =
        .ok ⟨e.ebasis, e.eterms, matMul e.escales c1, e.eindices⟩ := by
      unfold Expr.mul
      rw [if_neg hr1]
      exact exprMk_some _ _ _ _ (by rw [matSize_matMul]; exact hsz)
    have h2 : Expr.mul ⟨e.ebasis, e.eterms, matMul e.escales c1, e.eindices⟩
        (.num c2) = .ok ⟨e.ebasis, e.eterms,
          matMul (matMul e.escales c1) c2, e.eindices⟩ := by
      unfold Expr.mul
      rw [if_neg (show ¬ Expr.expr_rank ⟨e.ebasis, e.eterms,
        matMul e.escales c1, e.eindices⟩ = 1 from hr1)]
      exact exprMk_some _ _ _ _
        (by rw [matSize_matMul, matSize_matMul]; exact hsz)
    exact ⟨_, _, h1, h2, matMul_matMul e.escales c1 c2⟩
  · unfold Expr.mul
    rw [if_neg hr1]

/-- Witness for C4: the rank-2 expression `wV` with the tuple `(5, 7)`, the
scalars 2 and 3, and an unsupported operand. -/
theorem expr_mul_scale_wit :
    (∃ r : Expr, wV.mul (.tup (([5, 7] : List ℚ).map .num)) = .ok r ∧
      ∀ i, i < wV.num_components →
        ∃ f g, r.getitem i = .ok f ∧ wV.getitem i = .ok g ∧
          f.escales = matMul g.escales (([5, 7] : List ℚ).getD i 0)) ∧
    (∃ r1 r2 : Expr, wV.mul (.num 2) = .ok r1 ∧ r1.mul (.num 3) = .ok r2 ∧
      r2.escales = wV.escales.map (fun row => row.map (fun x => x * 2 * 3))) ∧
    wV.mul .other = .error .notImplementedError := by
  obtain ⟨hA, hB, hC⟩ := expr_mul_scale wV (by decide) (by decide) (by decide)
  exact ⟨hA [5, 7] (by decide), hB 2 3, hC⟩

/-- C3: for compatible `Expr`s, `a - b` equals `a + (-b)` termwise: terms
and indices are the term-axis concatenations of the operands' tensors, and
scales is `a`'s scales concatenated with the elementwise negation of `b`'s
scales; moreover `-(-a)` restores `a`'s terms, scales and indices. -/
theorem expr_sub_neg (a b : Expr) (hWa : a.WF) (hWb : b.WF)
    (hc : a.compat b) :
    (∃ r : Expr, a.sub b = ⟨.ok r, a, b⟩ ∧
      r.eterms = cat3 a.eterms b.eterms ∧
      r.escales = cat2 a.escales (matNeg b.escales) ∧
      r.eindices = cat2 a.eindices b.eindices) ∧
    (∃ n1 n2 : Expr, a.neg = .ok n1 ∧ n1.neg = .ok n2 ∧
      n2.eterms = a.eterms ∧ n2.escales = a.escales ∧
      n2.eindices = a.eindices) := by
  constructor
  · exact ⟨_, sub_ok a b hWa hWb hc, rfl, rfl, rfl⟩
  · have hsz : a.sizeOK := sizeOK_of_WF a hWa
    have h1 := neg_ok a hsz
    have hsz1 : Expr.sizeOK ⟨a.ebasis, a.eterms, matNeg a.escales,
        a.eindices⟩ := by
      show matSize (matNeg a.escales) = _
      rw [matSize_matNeg]
      exact hsz
    have h2 := neg_ok _ hsz1
    exact ⟨_, _, h1, h2, rfl, matNeg_matNeg a.escales, rfl⟩

/-- Witness for C3: `wA - wB` and `-(-wA)` over the same scalar space. -/
theorem expr_sub_neg_wit :
    ((∃ r : Expr, wA.sub wB = ⟨.ok r, wA, wB⟩ ∧
      r.eterms = cat3 wA.eterms wB.eterms ∧
      r.escales = cat2 wA.escales (matNeg wB.escales) ∧
      r.eindices = cat2 wA.eindices wB.eindices) ∧
    (∃ n1 n2 : Expr, wA.neg = .ok n1 ∧ n1.neg = .ok n2 ∧
      n2.eterms = wA.eterms ∧ n2.escales = wA.escales ∧
      n2.eindices = wA.eindices)) :=
  expr_sub_neg wA wB (by decide) (by decide) (by decide)

/-- Counterexample to C5 as stated: on the two-component expression `wV`,
`wV *= (2, <non-number>)` raises the assertion error yet leaves the scales
tensor partially mutated — row 0 has already been scaled by 2 when the
entry check on position 1 fails. -/
theorem imul_partial_mutation_cex :
    (wV.imul (.tup [.num 2, .nonNum])).res = .error .assertionError ∧
    (wV.imul (.tup [.num 2, .nonNum])).self1.escales ≠ wV.escales ∧
    (wV.imul (.tup [.num 2, .nonNum])).self1.escales = [[4], [3]] := by
  have hstep : tupScaleGo [PyVal.num 2, PyVal.nonNum] 0 [[2], [3]] =
      (.error .assertionError, ([[4], [3]] : Mat ℚ)) := by
    norm_num [tupScaleGo]
  have h : wV.imul (.tup [.num 2, .nonNum]) =
      ⟨.error .assertionError, ⟨bW2, wV.eterms, [[4], [3]], wV.eindices⟩⟩ := by
    unfold wV Expr.imul
    norm_num [Expr.expr_rank, Expr.dim, hstep]
  rw [h]
  refine ⟨rfl, ?_, rfl⟩
  show ([[4], [3]] : Mat ℚ) ≠ [[2], [3]]
  norm_num

/-- C5 (amended): failed in-place operations leave the tensors unchanged —
`+=` and `-=` on any incompatibility, `*=` with a non-number on a rank-1
expression, `*=` with an unsupported operand or a wrong-length tuple on a
rank-2 expression — except `*=` with a correctly sized tuple whose first
non-number entry is preceded by numbers: then every row before the first
non-number is already scaled by its tuple entry when the failure surfaces,
and the remaining rows are unchanged. -/
theorem inplace_fail_state :
    (∀ a b : Expr, ¬ a.compat b →
      a.iadd b = ⟨.error .assertionError, a, b⟩) ∧
    (∀ a b : Expr, ¬ a.compat b →
      a.isub b = ⟨.error .assertionError, a, b⟩) ∧
    (∀ (e : Expr) (m : MulArg), e.expr_rank = 1 → (∀ c, m ≠ .num c) →
      e.imul m = ⟨.error .assertionError, e⟩) ∧
    (∀ e : Expr, ¬ e.expr_rank = 1 →
      e.imul .other = ⟨.error .notImplementedError, e⟩) ∧
    (∀ (e : Expr) (cs : List PyVal), ¬ e.expr_rank = 1 →
      cs.length ≠ e.dim → e.imul (.tup cs) = ⟨.error .assertionError, e⟩) ∧
    (∀ (e : Expr) (qs : List ℚ) (rest : List PyVal), ¬ e.expr_rank = 1 →
      (qs.map PyVal.num ++ .nonNum :: rest).length = e.dim →
      (e.imul (.tup (qs.map .num ++ .nonNum :: rest))).res =
        .error .assertionError ∧
      ∀ i, ((e.imul (.tup (qs.map .num ++ .nonNum :: rest))).self1.escales).getD
          i [] =
        if i < qs.length then
          (e.escales.getD i []).map (fun x => x * qs.getD i 0)
        else e.escales.getD i []) := by
  refine ⟨?_, ?_, ?_, ?_, ?_, ?_⟩
  · intro a b h
    unfold Expr.iadd
    rw [if_neg h]
  · intro a b h
    unfold Expr.isub
    rw [if_neg h]
  · intro e m h1 h2
    unfold Expr.imul
    rw [if_pos h1]
    cases m with
    | num c => exact absurd rfl (h2 c)
    | tup cs => rfl
    | other => rfl
  · intro e h1
    unfold Expr.imul
    rw [if_neg h1]
  · intro e cs h1 h2
    unfold Expr.imul
    rw [if_neg h1]
    simp only [if_neg h2]
  · intro e qs rest h1 hlen
    have hout : e.imul (.tup (qs.map .num ++ .nonNum :: rest)) =
        ⟨.error .assertionError,
          { e with escales :=
            (scaleRowsSpec (qs.map .num ++ .nonNum :: rest) e.escales).2 }⟩ := by
      unfold Expr.imul
      rw [if_neg h1]
      simp only [if_pos hlen, tupScaleGo_eq_spec]
      rcases hsp : scaleRowsSpec (qs.map PyVal.num ++ .nonNum :: rest)
        e.escales with ⟨res, sc2⟩
      have hf := scaleRowsSpec_mixed_fst qs rest e.escales
      rw [hsp] at hf
      simp only at hf
      rw [hf]
    rw [hout]
    refine ⟨rfl, ?_⟩
    intro i
    exact scaleRowsSpec_append_snd qs (.nonNum :: rest) (fun _ => rfl)
      e.escales i

/-- Witness for C5 (amended), exercising every failure branch on concrete
expressions. -/
theorem inplace_fail_state_wit :
    wA.iadd wV = ⟨.error .assertionError, wA, wV⟩ ∧
    wA.isub wV = ⟨.error .assertionError, wA, wV⟩ ∧
    wA.imul .other = ⟨.error .assertionError, wA⟩ ∧
    wV.imul .other = ⟨.error .notImplementedError, wV⟩ ∧
    wV.imul (.tup [.num 2]) = ⟨.error .assertionError, wV⟩ ∧
    ((wV.imul (.tup (([(2 : ℚ)].map PyVal.num) ++ .nonNum :: []))).res =
        .error .assertionError ∧
      ∀ i, ((wV.imul (.tup (([(2 : ℚ)].map PyVal.num) ++
          .nonNum :: []))).self1.escales).getD i [] =
        if i < ([(2 : ℚ)]).length then
          (wV.escales.getD i []).map (fun x => x * ([(2 : ℚ)]).getD i 0)
        else wV.escales.getD i []) := by
  obtain ⟨h1, h2, h3, h4, h5, h6⟩ := inplace_fail_state
  exact ⟨h1 wA wV (by decide), h2 wA wV (by decide),
    h3 wA .other (by decide) (fun c h => MulArg.noConfusion h),
    h4 wV (by decide), h5 wV [.num 2] (by decide) (by decide),
    h6 wV [2] [] (by decide) (by decide)⟩

/-- C6: operands that differ in function space, role or component count
make both `a + b` and `a += b` raise the invalid-operation (assertion)
failure, and afterwards the terms, scales and indices tensors of both
operands are unchanged. -/
theorem add_incompat_raises (a b : Expr)
    (h : a.num_components ≠ b.num_components ∨
      a.function_space ≠ b.function_space ∨ a.argument ≠ b.argument) :
    a.add b = ⟨.error .assertionError, a, b⟩ ∧
    a.iadd b = ⟨.error .assertionError, a, b⟩ := by
  have hnc : ¬ a.compat b := by
    unfold Expr.compat
    rcases h with h | h | h <;> tauto
  refine ⟨?_, ?_⟩
  · unfold Expr.add
    rw [if_neg hnc]
  · unfold Expr.iadd
    rw [if_neg hnc]

/-- Witness for C6: `wA` and `wV` live on different spaces, have different
roles and different component counts. -/
theorem add_incompat_raises_wit :
    wA.add wV = ⟨.error .assertionError, wA, wV⟩ ∧
    wA.iadd wV = ⟨.error .assertionError, wA, wV⟩ :=
  add_incompat_raises wA wV (Or.inl (by decide))

/-- C9: component extraction is a pure read: `a[i]` has one component and
tensors equal to row i of `a`'s tensors reshaped to leading dimension 1,
and repeated extraction is idempotent — `a[i][0]` has the same terms,
scales and indices as `a[i]` (the method itself writes nothing). -/
theorem getitem_pure_read (e : Expr) (hW : e.WF) (i : Nat)
    (hi : i < e.num_components) :
    ∃ f : Expr, e.getitem i = .ok f ∧
      f.num_components = 1 ∧
      f.eterms = [e.eterms.getD i []] ∧
      f.escales = [e.escales.getD i []] ∧
      f.eindices = [e.eindices.getD i []] ∧
      ∃ g : Expr, f.getitem 0 = .ok g ∧ g.eterms = f.eterms ∧
        g.escales = f.escales ∧ g.eindices = f.eindices := by
  have hiC : i < e.eterms.length := hi
  have h1 := getitem_ok e i
    (by rw [WF_scales_row e hW i hiC, WF_terms_row e hW i hiC])
  refine ⟨_, h1, rfl, rfl, rfl, rfl, ?_⟩
  have h2 := getitem_ok ⟨if e.rank = 2 then e.ebasis.getitem i else e.ebasis,
    [e.eterms.getD i []], [e.escales.getD i []], [e.eindices.getD i []]⟩ 0
    (by simp only [List.getD_cons_zero]
        rw [WF_scales_row e hW i hiC, WF_terms_row e hW i hiC])
  exact ⟨_, h2, rfl, rfl, rfl⟩

/-- Witness for C9: component 1 of the vector expression `wV`. -/
theorem getitem_pure_read_wit :
    ∃ f : Expr, wV.getitem 1 = .ok f ∧
      f.num_components = 1 ∧
      f.eterms = [wV.eterms.getD 1 []] ∧
      f.escales = [wV.escales.getD 1 []] ∧
      f.eindices = [wV.eindices.getD 1 []] ∧
      ∃ g : Expr, f.getitem 0 = .ok g ∧ g.eterms = f.eterms ∧
        g.escales = f.escales ∧ g.eindices = f.eindices :=
  getitem_pure_read wV (by decide) 1 (by decide)

/-- C7: the `Basis` factory dispatches family `'F'`/`'Fourier'` with
`bc=None` to the complex-to-complex constructor for a complex dtype
character code and to the real-to-complex constructor for a real one;
family `'C'`/`'Chebyshev'` with a 2-tuple `bc=(a,b)` to the inhomogeneous
Dirichlet Chebyshev variant with `(a,b)` forwarded unchanged as the `bc`
parameter; and any family outside the known set to a not-implemented
failure. -/
theorem basis_dispatch :
    (∀ fam : String, fam = "F" ∨ fam = "Fourier" →
      ∀ c : Char, complexChar c →
      ∀ (quad : Option String) (dom : Option (ℚ × ℚ)) (sc : Option Bool)
        (pl : Bool) (pf : ℚ) (dd : Bool), ∃ par : Par,
        Basis fam none c quad dom sc pl pf dd = .ok (.fourierC2C, par)) ∧
    (∀ fam : String, fam = "F" ∨ fam = "Fourier" →
      ∀ c : Char, ¬ complexChar c →
      ∀ (quad : Option String) (dom : Option (ℚ × ℚ)) (sc : Option Bool)
        (pl : Bool) (pf : ℚ) (dd : Bool), ∃ par : Par,
        Basis fam none c quad dom sc pl pf dd = .ok (.fourierR2C, par)) ∧
    (∀ fam : String, fam = "C" ∨ fam = "Chebyshev" → ∀ a b : ℚ,
      ∀ quad : Option String,
      quad = none ∨ quad = some "GC" ∨ quad = some "GL" →
      ∀ (c : Char) (dom : Option (ℚ × ℚ)) (sc : Option Bool) (pl : Bool)
        (pf : ℚ) (dd : Bool), ∃ par : Par,
        Basis fam (some (.tup [a, b])) c quad dom sc pl pf dd =
          .ok (.chebShenDirichlet, par) ∧ par.bc = some [a, b]) ∧
    (∀ fam : String, strLower fam ∉
        (["fourier", "f", "chebyshev", "c", "legendre", "l"] : List String) →
      ∀ (bc : Option BCVal) (c : Char) (quad : Option String)
        (dom : Option (ℚ × ℚ)) (sc : Option Bool) (pl : Bool) (pf : ℚ)
        (dd : Bool),
        Basis fam bc c quad dom sc pl pf dd =
          .error .notImplementedError) := by
  refine ⟨?_, ?_, ?_, ?_⟩
  · intro fam hf c hc quad dom sc pl pf dd
    refine ⟨⟨pl, dom, some pf, some dd, none, none, none⟩, ?_⟩
    rcases hf with rfl | rfl <;>
    · unfold Basis
      rw [if_pos (by decide), if_pos hc]
  · intro fam hf c hc quad dom sc pl pf dd
    refine ⟨⟨pl, dom, some pf, some dd, none, none, none⟩, ?_⟩
    rcases hf with rfl | rfl <;>
    · unfold Basis
      rw [if_pos (by decide), if_neg hc]
  · intro fam hf a b quad hq c dom sc pl pf dd
    rcases hq with rfl | rfl | rfl
    · refine ⟨⟨pl, dom, none, none, none, some [a, b], none⟩, ?_, rfl⟩
      rcases hf with rfl | rfl <;>
      · unfold Basis
        rw [if_neg (by decide), if_pos (by decide)]
        simp
    · refine ⟨⟨pl, dom, none, none, some "GC", some [a, b], none⟩, ?_, rfl⟩
      rcases hf with rfl | rfl <;>
      · unfold Basis
        rw [if_neg (by decide), if_pos (by decide)]
        simp
    · refine ⟨⟨pl, dom, none, none, some "GL", some [a, b], none⟩, ?_, rfl⟩
      rcases hf with rfl | rfl <;>
      · unfold Basis
        rw [if_neg (by decide), if_pos (by decide)]
        simp
  · intro fam h bc c quad dom sc pl pf dd
    simp only [List.mem_cons, List.not_mem_nil, or_false, not_or] at h
    obtain ⟨h1, h2, h3, h4, h5, h6⟩ := h
    unfold Basis
    rw [if_neg (not_or.mpr ⟨h1, h2⟩), if_neg (not_or.mpr ⟨h3, h4⟩),
      if_neg (not_or.mpr ⟨h5, h6⟩)]

/-- Witness for C7: Fourier with complex dtype code `'D'` and real code
`'d'`, Chebyshev with `bc=(3,5)` and quadrature `'GC'`, and the unknown
family `'Hermite'`. -/
theorem basis_dispatch_wit :
    (∃ par : Par, Basis "F" none 'D' none none none false 1 false =
      .ok (.fourierC2C, par)) ∧
    (∃ par : Par, Basis "F" none 'd' none none none false 1 false =
      .ok (.fourierR2C, par)) ∧
    (∃ par : Par, Basis "C" (some (.tup [3, 5])) 'd' (some "GC") none none
      false 1 false = .ok (.chebShenDirichlet, par) ∧
      par.bc = some [3, 5]) ∧
    Basis "Hermite" none 'd' none none none false 1 false =
      .error .notImplementedError := by
  obtain ⟨h1, h2, h3, h4⟩ := basis_dispatch
  exact ⟨h1 "F" (Or.inl rfl) 'D' (by decide) none none none false 1 false,
    h2 "F" (Or.inl rfl) 'd' (by decide) none none none false 1 false,
    h3 "C" (Or.inl rfl) 3 5 (some "GC") (Or.inr (Or.inl rfl)) 'd' none
      none false 1 false,
    h4 "Hermite" (by decide) none 'd' none none none false 1 false⟩

/-- C8 (code bug): for family Chebyshev or Legendre an unrecognized `bc`
string such as `'robin'` falls through every branch of the string dispatch
without assigning the constructor variable, so the trailing
`return B(N, **par)` raises `UnboundLocalError` instead of the
`NotImplementedError` the claim (and the surrounding dispatch structure)
prescribes. -/
theorem basis_robin_unbound :
    Basis "C" (some (.str "robin")) 'd' none none none false 1 false =
      .error .unboundLocalError ∧
    Basis "L" (some (.str "robin")) 'd' none none none false 1 false =
      .error .unboundLocalError :=
  ⟨rfl, rfl⟩

/-- C10: the non-in-place operations `a + b`, `a - b`, `-a` and `a * c`
return an `Expr` whose three tensors are newly allocated arrays, distinct
from every array of their operands, and leave the operands' array objects
(tags and contents) unchanged. -/
theorem nonmutating_ops_fresh :
    (∀ (e a : ExprT) (ctr : Nat), (∀ t ∈ e.tags ++ a.tags, t < ctr) →
      e.toExpr.WF → a.toExpr.WF → e.toExpr.compat a.toExpr →
      ∃ (r : ExprT) (ctr' : Nat), e.addT a ctr = ((.ok r, ctr'), e, a) ∧
        ∀ t ∈ r.tags, t ∉ e.tags ++ a.tags) ∧
    (∀ (e a : ExprT) (ctr : Nat), (∀ t ∈ e.tags ++ a.tags, t < ctr) →
      e.toExpr.WF → a.toExpr.WF → e.toExpr.compat a.toExpr →
      ∃ (r : ExprT) (ctr' : Nat), e.subT a ctr = ((.ok r, ctr'), e, a) ∧
        ∀ t ∈ r.tags, t ∉ e.tags ++ a.tags) ∧
    (∀ (e : ExprT) (ctr : Nat), (∀ t ∈ e.tags, t < ctr) →
      e.toExpr.sizeOK →
      ∃ (r : ExprT) (ctr' : Nat), e.negT ctr = ((.ok r, ctr'), e) ∧
        ∀ t ∈ r.tags, t ∉ e.tags) ∧
    (∀ (e : ExprT) (m : MulArg) (ctr : Nat) (v : Expr),
      (∀ t ∈ e.tags, t < ctr) → Expr.mul e.toExpr m = .ok v →
      ∃ (r : ExprT) (ctr' : Nat), e.mulT m ctr = ((.ok r, ctr'), e) ∧
        ∀ t ∈ r.tags, t ∉ e.tags) := by
  refine ⟨?_, ?_, ?_, ?_⟩
  · intro e a ctr htag hWe hWa hcp
    have h := (add_ok e.toExpr a.toExpr hWe hWa hcp).1
    have hres : (Expr.add e.toExpr a.toExpr).res = .ok
        ⟨e.toExpr.ebasis, cat3 e.toExpr.eterms a.toExpr.eterms,
          cat2 e.toExpr.escales a.toExpr.escales,
          cat2 e.toExpr.eindices a.toExpr.eindices⟩ := by rw [h]
    refine ⟨⟨e.tbasis, ⟨ctr, cat3 e.toExpr.eterms a.toExpr.eterms⟩,
      ⟨ctr + 1, cat2 e.toExpr.escales a.toExpr.escales⟩,
      ⟨ctr + 2, cat2 e.toExpr.eindices a.toExpr.eindices⟩⟩, ctr + 3,
      ?_, ?_⟩
    · unfold ExprT.addT
      rw [hres]
    · intro t ht hmem
      have hlt := htag t hmem
      simp only [ExprT.tags, List.mem_cons, List.not_mem_nil, or_false]
        at ht
      rcases ht with rfl | rfl | rfl <;> omega
  · intro e a ctr htag hWe hWa hcp
    have h := sub_ok e.toExpr a.toExpr hWe hWa hcp
    have hres : (Expr.sub e.toExpr a.toExpr).res = .ok
        ⟨e.toExpr.ebasis, cat3 e.toExpr.eterms a.toExpr.eterms,
          cat2 e.toExpr.escales (matNeg a.toExpr.escales),
          cat2 e.toExpr.eindices a.toExpr.eindices⟩ := by rw [h]
    refine ⟨⟨e.tbasis, ⟨ctr, cat3 e.toExpr.eterms a.toExpr.eterms⟩,
      ⟨ctr + 1, cat2 e.toExpr.escales (matNeg a.toExpr.escales)⟩,
      ⟨ctr + 2, cat2 e.toExpr.eindices a.toExpr.eindices⟩⟩, ctr + 3,
      ?_, ?_⟩
    · unfold ExprT.subT
      rw [hres]
    · intro t ht hmem
      have hlt := htag t hmem
      simp only [ExprT.tags, List.mem_cons, List.not_mem_nil, or_false]
        at ht
      rcases ht with rfl | rfl | rfl <;> omega
  · intro e ctr htag hsz
    refine ⟨⟨e.tbasis, ⟨ctr, e.toExpr.eterms⟩,
      ⟨ctr + 1, matNeg e.toExpr.escales⟩, ⟨ctr + 2, e.toExpr.eindices⟩⟩,
      ctr + 3, ?_, ?_⟩
    · unfold ExprT.negT
      rw [neg_ok e.toExpr hsz]
    · intro t ht hmem
      have hlt := htag t hmem
      simp only [ExprT.tags, List.mem_cons, List.not_mem_nil, or_false]
        at ht
      rcases ht with rfl | rfl | rfl <;> omega
  · intro e m ctr v htag hmul
    refine ⟨⟨e.tbasis, ⟨ctr, v.eterms⟩, ⟨ctr + 1, v.escales⟩,
      ⟨ctr + 2, v.eindices⟩⟩, ctr + 3, ?_, ?_⟩
    · unfold ExprT.mulT
      rw [hmul]
    · intro t ht hmem
      have hlt := htag t hmem
      simp only [ExprT.tags, List.mem_cons, List.not_mem_nil, or_false]
        at ht
      rcases ht with rfl | rfl | rfl <;> omega

/-- Witness for C10: `wAT`/`wBT` (array tags 0..5) with allocation counter
6, negation, and multiplication of `wAT` by the scalar 2. -/
theorem nonmutating_ops_fresh_wit :
    (∃ (r : ExprT) (ctr' : Nat), wAT.addT wBT 6 = ((.ok r, ctr'), wAT, wBT) ∧
      ∀ t ∈ r.tags, t ∉ wAT.tags ++ wBT.tags) ∧
    (∃ (r : ExprT) (ctr' : Nat), wAT.subT wBT 6 = ((.ok r, ctr'), wAT, wBT) ∧
      ∀ t ∈ r.tags, t ∉ wAT.tags ++ wBT.tags) ∧
    (∃ (r : ExprT) (ctr' : Nat), wAT.negT 6 = ((.ok r, ctr'), wAT) ∧
      ∀ t ∈ r.tags, t ∉ wAT.tags) ∧
    (∃ (r : ExprT) (ctr' : Nat), wAT.mulT (.num 2) 6 = ((.ok r, ctr'), wAT) ∧
      ∀ t ∈ r.tags, t ∉ wAT.tags) := by
  obtain ⟨h1, h2, h3, h4⟩ := nonmutating_ops_fresh
  have hm : Expr.mul wA (.num 2) =
      .ok ⟨wA.ebasis, wA.eterms, matMul wA.escales 2, wA.eindices⟩ := by
    unfold Expr.mul
    rw [if_pos (by decide : wA.expr_rank = 1)]
    exact exprMk_some _ _ _ _ (by rw [matSize_matMul]; decide)
  exact ⟨h1 wAT wBT 6 (by decide) (by decide) (by decide) (by decide),
    h2 wAT wBT 6 (by decide) (by decide) (by decide) (by decide),
    h3 wAT 6 (by decide) (by decide),
    h4 wAT (.num 2) 6 _ (by decide) hm⟩

end Shenfun
